import Mathlib

/-!
Verification development for the qtrader reconciliation engine
(`qtrader/core/engine.py`).

The data model and the operations below are a shallow embedding of the
Python source: `sync_broker_balance`, `sync_broker_position`,
`get_db_balance`, `get_db_position`, `persist_account_balance`,
`persist_position` and `convert_direction_db2qt`.  Monetary amounts and
quantities are modelled as rationals (`Rat`), time stamps as opaque `Nat`
values.  Python exceptions (assertion errors, `ValueError`, `IndexError`,
`AttributeError`) are modelled with `Except`; for the sync operations the
error value also carries the ledger state at the moment the exception is
raised, together with the log of write operations already performed, so
that partial writes are observable.
-/

deriving instance DecidableEq for Except

namespace QTrader

/-- qtrader.core.constants.Direction (the three members used by the engine). -/
inductive Direction
  | LONG
  | SHORT
  | NET
deriving DecidableEq, Repr

/-- Python `direction.name`, the string stored in the `position` table. -/
def Direction.nameStr : Direction → String
  | .LONG => "LONG"
  | .SHORT => "SHORT"
  | .NET => "NET"

/-- convert_direction_db2qt (engine.py lines 478-487): `ValueError` on any
other string, modelled as `.error`. -/
def convert_direction_db2qt (direction : String) : Except String Direction :=
  if direction = "LONG" then .ok .LONG
  else if direction = "SHORT" then .ok .SHORT
  else if direction = "NET" then .ok .NET
  else .error "direction in database is invalid"

/-- qtrader.core.security.Stock: the two fields the engine reads/writes. -/
structure Stock where
  code : String
  stock_name : String
deriving DecidableEq, Repr

/-- qtrader.core.balance.AccountBalance: the four fields the engine
reads/writes. -/
structure AccountBalance where
  cash : Rat
  power : Rat
  max_power_short : Rat
  net_cash_power : Rat
deriving DecidableEq, Repr

/-- qtrader.core.position.PositionData: the fields the engine reads/writes. -/
structure PositionData where
  security : Stock
  direction : Direction
  holding_price : Rat
  quantity : Rat
  update_time : Nat
deriving DecidableEq, Repr

/-- The identity configuration `(broker_name, broker_environment,
broker_account)` coming from `GATEWAY` and `market.trade_mode`. -/
structure BrokerIdent where
  broker_name : String
  broker_environment : String
  broker_account : String
deriving DecidableEq, Repr

/-- One row of the `balance` table, with the columns written by
`sync_broker_balance` (engine.py lines 150-186). -/
structure BalanceRow where
  id : Nat
  ident : BrokerIdent
  broker_account_id : Nat
  strategy_account_id : Nat
  strategy_account : String
  strategy_version : String
  strategy_version_desc : String
  strategy_status : String
  cash : Rat
  power : Rat
  max_power_short : Rat
  net_cash_power : Rat
  update_time : Nat
  remark : String
deriving DecidableEq, Repr

/-- One row of the `position` table, with the columns written by
`sync_broker_position` and `persist_position`.  The `direction` column is
stored as a string (`direction.name`), exactly as in the source. -/
structure PositionRow where
  balance_id : Nat
  security_name : String
  security_code : String
  direction : String
  holding_price : Rat
  quantity : Rat
  update_time : Nat
deriving DecidableEq, Repr

/-- Modelled from the spec: the sqlite3 ledger plugin is not under src/;
spec section 4.1 specifies it as an abstract durable store of the two
tables with select/insert/update/delete by filter and no behavior of its
own beyond storage.  `nextId` models the autoincrement primary key of the
`balance` table. -/
structure Ledger where
  balance : List BalanceRow
  position : List PositionRow
  nextId : Nat
deriving DecidableEq, Repr

/-- A write operation performed on the ledger (used to count the ledger
writes a call performs). -/
inductive WriteOp
  | insertBal
  | updateBal
  | insertPos
  | deletePos
deriving DecidableEq, Repr

/-- The engine-side state used by the reconciliation functions: the
identity configuration, the strategy identity set by `init_portfolio`,
and the in-memory portfolio (`account_balance` and `position`).
`account_balance` is an `Option` because the source can assign the result
of `get_db_balance` (which may be `None`) to it.  The portfolio position
is modelled as a list of `PositionData` with (security, direction) keys. -/
structure EngineState where
  ident : BrokerIdent
  strategy_account : String
  strategy_version : String
  account_balance : Option AccountBalance
  position : List PositionData
deriving DecidableEq, Repr

/-- A raised Python exception, carrying the ledger state and the write log
at the moment it was raised (so that partial writes are observable). -/
structure SyncErr where
  msg : String
  db : Ledger
  writes : List WriteOp
deriving DecidableEq, Repr

/-- Modelled from the spec: qtrader.core.position.Position is not under
src/; spec section 3 defines it as a mapping from `(security, direction)`
to `PositionData` with upsert semantics for the OPEN offset (`update`
with OPEN adds to or overwrites the entry for that key). -/
def positionUpdate (pos : List PositionData) (pd : PositionData) : List PositionData :=
  if pos.any (fun q => q.security == pd.security && q.direction == pd.direction) then
    pos.map (fun q =>
      if q.security == pd.security && q.direction == pd.direction then pd else q)
  else pos ++ [pd]

/-- The `select_records(table_name="balance", broker_name=..,
broker_environment=.., broker_account=..)` filter used by both sync
functions (engine.py lines 131-136 and 221-226). -/
def balanceDf (db : Ledger) (i : BrokerIdent) : List BalanceRow :=
  db.balance.filter (fun r => r.ident == i)

/-- The `select_records` filter that additionally pins
`(strategy_account, strategy_version)` (engine.py lines 81-88 and
526-533). -/
def strategyFilter (db : Ledger) (i : BrokerIdent) (sa sv : String) : List BalanceRow :=
  db.balance.filter (fun r =>
    r.ident == i && r.strategy_account == sa && r.strategy_version == sv)

/-- Engine.get_db_balance (engine.py lines 79-98): `None` when no row
matches, the row's four balance fields when exactly one matches, and an
assertion error when more than one matches. -/
def get_db_balance (db : Ledger) (i : BrokerIdent) (sa sv : String) :
    Except String (Option AccountBalance) :=
  match strategyFilter db i sa sv with
  | [] => .ok none
  | [r] => .ok (some ⟨r.cash, r.power, r.max_power_short, r.net_cash_power⟩)
  | _ => .error "more than one balance row"

/-- Reading one `position` row back into a `PositionData`
(engine.py lines 109-118): rebuilds the `Stock` from the code/name columns
and converts the direction string (raising on an invalid one). -/
def parseRow (row : PositionRow) : Except String PositionData :=
  match convert_direction_db2qt row.direction with
  | .error m => .error m
  | .ok d =>
      .ok ⟨⟨row.security_code, row.security_name⟩, d,
           row.holding_price, row.quantity, row.update_time⟩

/-- The loop of Engine.get_db_position (engine.py lines 109-120): fold the
rows into a fresh `Position` via `update(..., Offset.OPEN)`. -/
def buildPosition (rows : List PositionRow) (acc : List PositionData) :
    Except String (List PositionData) :=
  match rows with
  | [] => .ok acc
  | row :: rest =>
    match parseRow row with
    | .error m => .error m
    | .ok pd => buildPosition rest (positionUpdate acc pd)

/-- Engine.get_db_position (engine.py lines 100-121): `None` when the
`position` table has no row for this `balance_id`, otherwise the rows
folded into a `Position`. -/
def get_db_position (db : Ledger) (balance_id : Nat) :
    Except String (Option (List PositionData)) :=
  match db.position.filter (fun p => p.balance_id == balance_id) with
  | [] => .ok none
  | row :: rest =>
    match buildPosition (row :: rest) [] with
    | .error m => .error m
    | .ok pos => .ok (some pos)

/-- The fresh `(broker_account_id, strategy_account_id)` pair allocated by
the first-time bootstrap branch (engine.py lines 138-144): 1 when the
whole `balance` table is empty, otherwise max of the existing column + 1. -/
def bootstrapIds (db : Ledger) : Nat × Nat :=
  match db.balance with
  | [] => (1, 1)
  | _ =>
    ((db.balance.map (fun r => r.broker_account_id)).foldl Nat.max 0 + 1,
     (db.balance.map (fun r => r.strategy_account_id)).foldl Nat.max 0 + 1)

/-- The default row inserted by the bootstrap branch
(engine.py lines 150-167).  Note that its `strategy_version` is the
engine's `strategy_version`, not the literal "1.0". -/
def mkDefaultRow (eng : EngineState) (baid said : Nat) (cash power : Rat)
    (now rowId : Nat) : BalanceRow :=
  ⟨rowId, eng.ident, baid, said, "default", eng.strategy_version,
   "manual trading", "active", cash, power, -1, -1, now, "N/A"⟩

/-- The strategy row inserted by the bootstrap branch
(engine.py lines 169-186). -/
def mkStrategyRow (eng : EngineState) (baid said : Nat) (cash power : Rat)
    (now rowId : Nat) : BalanceRow :=
  ⟨rowId, eng.ident, baid, said, eng.strategy_account, eng.strategy_version,
   "", "active", cash, power, -1, -1, now, "N/A"⟩

/-- The first-time branch of sync_broker_balance
(engine.py lines 137-186): allocate fresh ids, check the two
non-negativity assertions, insert the default row then the strategy row. -/
def bootstrap (eng : EngineState) (db : Ledger) (b : AccountBalance) (now : Nat) :
    Except SyncErr (Ledger × List WriteOp) :=
  match eng.account_balance with
  | none => .error ⟨"AttributeError", db, []⟩
  | some portfolioBal =>
    let baid := (bootstrapIds db).1
    let said := (bootstrapIds db).2
    let cash := b.cash - portfolioBal.cash
    let power := b.power - portfolioBal.power
    if cash < 0 then .error ⟨"cash exceeds broker total", db, []⟩
    else if power < 0 then .error ⟨"power exceeds broker total", db, []⟩
    else
      .ok ({ db with
              balance := db.balance ++
                [mkDefaultRow eng baid said cash power now db.nextId,
                 mkStrategyRow eng baid (said + 1) portfolioBal.cash
                   portfolioBal.power now (db.nextId + 1)],
              nextId := db.nextId + 2 },
           [.insertBal, .insertBal])

/-- `update_records(table_name="balance", columns={"cash": v}, id=i)`. -/
def updateCashById (db : Ledger) (i : Nat) (v : Rat) : Ledger :=
  { db with balance := db.balance.map (fun r => if r.id = i then { r with cash := v } else r) }

/-- `update_records(table_name="balance", columns={"power": v}, id=i)`. -/
def updatePowerById (db : Ledger) (i : Nat) (v : Rat) : Ledger :=
  { db with balance := db.balance.map (fun r => if r.id = i then { r with power := v } else r) }

/-- The subsequent-times branch of sync_broker_balance
(engine.py lines 187-204): pick the first row of the filtered frame with
`strategy_account == "default"` (an `IndexError` if there is none), then
for each of `cash`, `power` in that order: compute the delta against the
sum over the frame fetched before the loop, assert non-negativity of the
updated default value, and write the update unless the delta is zero.
Both deltas and both current values are read from the stale frame
`balance_df`, exactly as in the source. -/
def subsequent (db : Ledger) (balance_df : List BalanceRow) (b : AccountBalance) :
    Except SyncErr (Ledger × List WriteOp) :=
  match balance_df.find? (fun r => r.strategy_account == "default") with
  | none => .error ⟨"IndexError", db, []⟩
  | some d =>
    let deltaCash := b.cash - (balance_df.map (fun r => r.cash)).sum
    if d.cash + deltaCash < 0 then .error ⟨"negative cash", db, []⟩
    else
      let step1 : Ledger × List WriteOp :=
        if deltaCash = 0 then (db, [])
        else (updateCashById db d.id (d.cash + deltaCash), [.updateBal])
      let deltaPower := b.power - (balance_df.map (fun r => r.power)).sum
      if d.power + deltaPower < 0 then .error ⟨"negative power", step1.1, step1.2⟩
      else
        let step2 : Ledger × List WriteOp :=
          if deltaPower = 0 then (step1.1, [])
          else (updatePowerById step1.1 d.id (d.power + deltaPower), [.updateBal])
        .ok (step2.1, step1.2 ++ step2.2)

/-- Engine.sync_broker_balance (engine.py lines 123-209), in the
configuration where a ledger is present (`has_db()` true).  The broker
snapshot is `none` when unavailable, in which case the call returns
immediately.  After the branch, the portfolio balance is re-read from the
ledger for `(strategy_account, strategy_version)` and assigned (possibly
`none`) to the portfolio. -/
def sync_broker_balance (eng : EngineState) (db : Ledger)
    (broker : Option AccountBalance) (now : Nat) :
    Except SyncErr (EngineState × Ledger × List WriteOp) :=
  match broker with
  | none => .ok (eng, db, [])
  | some b =>
    let step :=
      if (balanceDf db eng.ident).isEmpty then bootstrap eng db b now
      else subsequent db (balanceDf db eng.ident) b
    match step with
    | .error e => .error e
    | .ok (db', ws) =>
      match get_db_balance db' eng.ident eng.strategy_account eng.strategy_version with
      | .error m => .error ⟨m, db', ws⟩
      | .ok ob => .ok ({ eng with account_balance := ob }, db', ws)

/-- Engine.sync_broker_balance in the no-ledger configuration
(engine.py lines 126-129): overwrite the in-memory balance with the
broker snapshot. -/
def sync_broker_balance_nodb (eng : EngineState)
    (broker : Option AccountBalance) : EngineState :=
  match broker with
  | none => eng
  | some b => { eng with account_balance := some b }

/-- A `position` row as inserted from a `PositionData`
(engine.py lines 256-265, 317-326 and 548-557). -/
def mkPosRow (balance_id : Nat) (bp : PositionData) : PositionRow :=
  ⟨balance_id, bp.security.stock_name, bp.security.code, bp.direction.nameStr,
   bp.holding_price, bp.quantity, bp.update_time⟩

/-- The remainder computation of sync_broker_position
(engine.py lines 293-308): subtract the db quantity from the broker
quantity; quantity-weighted price when positive, sentinel price -1 when
zero, `ValueError` when negative. -/
def remainderOf (brk dbp : PositionData) : Except String PositionData :=
  let quantity := brk.quantity - dbp.quantity
  if 0 < quantity then
    .ok ⟨dbp.security, dbp.direction,
         (brk.holding_price * brk.quantity - dbp.holding_price * dbp.quantity) / quantity,
         quantity, dbp.update_time⟩
  else if quantity = 0 then
    .ok ⟨dbp.security, dbp.direction, -1, quantity, dbp.update_time⟩
  else
    .error "db position larger than broker position"

/-- The inner loop of sync_broker_position (engine.py lines 290-308):
subtract one db position from every broker position that matches it on
`(security, direction)`, leaving the other entries unchanged. -/
def subtractDbPos (dbp : PositionData) :
    List PositionData → Except String (List PositionData)
  | [] => .ok []
  | brk :: rest =>
    match (if brk.security == dbp.security && brk.direction == dbp.direction
           then remainderOf brk dbp else .ok brk) with
    | .error m => .error m
    | .ok x =>
      match subtractDbPos dbp rest with
      | .error m => .error m
      | .ok xs => .ok (x :: xs)

/-- The outer loop of sync_broker_position over the non-default position
rows (engine.py lines 276-308), threading the broker position list.
The `strat_positions` local of the source is write-only (it is never read
afterwards) and is not modelled. -/
def reduceBroker (rows : List PositionRow) (brks : List PositionData) :
    Except String (List PositionData) :=
  match rows with
  | [] => .ok brks
  | row :: rest =>
    match parseRow row with
    | .error m => .error m
    | .ok pd =>
      match subtractDbPos pd brks with
      | .error m => .error m
      | .ok brks2 => reduceBroker rest brks2

/-- The `position` rows whose `balance_id` belongs to a balance row of
this broker account (engine.py lines 235-239). -/
def positionDf (db : Ledger) (i : BrokerIdent) : List PositionRow :=
  db.position.filter
    (fun p => ((balanceDf db i).map (fun r => r.id)).contains p.balance_id)

/-- Engine.sync_broker_position (engine.py lines 211-329), in the
configuration where a ledger is present.  A `none` broker snapshot
returns immediately.  Otherwise: assert the balance table is not empty
for this identity, locate the strategy row (`IndexError` if absent) and
the unique default row (`strategy_account="default"`,
`strategy_version="1.0"`; assertion error unless exactly one).  If no
position row exists, insert every broker position into the default
account and empty the in-memory position.  Otherwise subtract every
non-default row from the broker list, delete the default rows, reinsert
the remainders with positive quantity, and reload the strategy's
position from the ledger. -/
def sync_broker_position (eng : EngineState) (db : Ledger)
    (brokerPos : Option (List PositionData)) :
    Except SyncErr (EngineState × Ledger × List WriteOp) :=
  match brokerPos with
  | none => .ok (eng, db, [])
  | some bps =>
    if (balanceDf db eng.ident).isEmpty then
      .error ⟨"balance should not be empty", db, []⟩
    else
      match (balanceDf db eng.ident).find? (fun r =>
          r.strategy_account == eng.strategy_account &&
          r.strategy_version == eng.strategy_version) with
      | none => .error ⟨"IndexError", db, []⟩
      | some stratRow =>
        match (balanceDf db eng.ident).filter (fun r =>
            r.strategy_account == "default" && r.strategy_version == "1.0") with
        | [defaultRow] =>
          if (positionDf db eng.ident).isEmpty then
            .ok ({ eng with position := [] },
                 { db with position := db.position ++ bps.map (mkPosRow defaultRow.id) },
                 bps.map (fun _ => WriteOp.insertPos))
          else
            match reduceBroker
                ((positionDf db eng.ident).filter
                  (fun p => p.balance_id != defaultRow.id)) bps with
            | .error m => .error ⟨m, db, []⟩
            | .ok brks2 =>
              let kept := brks2.filter (fun bp => decide (0 < bp.quantity))
              let db2 : Ledger :=
                { db with position :=
                    db.position.filter (fun p => p.balance_id != defaultRow.id) ++
                    kept.map (mkPosRow defaultRow.id) }
              let ws := WriteOp.deletePos :: kept.map (fun _ => WriteOp.insertPos)
              match get_db_position db2 stratRow.id with
              | .error m => .error ⟨m, db2, ws⟩
              | .ok posOpt => .ok ({ eng with position := posOpt.getD [] }, db2, ws)
        | _ => .error ⟨"default balance row not unique", db, []⟩

/-- Engine.sync_broker_position in the no-ledger configuration
(engine.py lines 215-218): one `update(..., Offset.OPEN)` per broker
position. -/
def sync_broker_position_nodb (eng : EngineState)
    (brokerPos : Option (List PositionData)) : EngineState :=
  match brokerPos with
  | none => eng
  | some bps => { eng with position := bps.foldl positionUpdate eng.position }

/-- The per-field update dictionary built by persist_account_balance
(engine.py lines 512-515): a field is included only when the in-memory
value differs from the ledger value. -/
structure BalUpdates where
  cash : Option Rat
  power : Option Rat
  max_power_short : Option Rat
  net_cash_power : Option Rat
deriving DecidableEq, Repr

def mkUpdates (ab dbb : AccountBalance) : BalUpdates :=
  ⟨if ab.cash ≠ dbb.cash then some ab.cash else none,
   if ab.power ≠ dbb.power then some ab.power else none,
   if ab.max_power_short ≠ dbb.max_power_short then some ab.max_power_short else none,
   if ab.net_cash_power ≠ dbb.net_cash_power then some ab.net_cash_power else none⟩

def BalUpdates.isEmptyDict (u : BalUpdates) : Bool :=
  u.cash.isNone && u.power.isNone && u.max_power_short.isNone && u.net_cash_power.isNone

def applyUpdates (u : BalUpdates) (r : BalanceRow) : BalanceRow :=
  { r with
    cash := u.cash.getD r.cash,
    power := u.power.getD r.power,
    max_power_short := u.max_power_short.getD r.max_power_short,
    net_cash_power := u.net_cash_power.getD r.net_cash_power }

/-- persist_account_balance (engine.py lines 503-522): read the ledger
balance for `(strategy_account, strategy_version)`; skip when absent;
otherwise collect the changed fields and, when any, write them in one
`update_records` call filtered by `strategy_account` and
`strategy_version` only (no broker identity filter), exactly as in the
source. -/
def persist_account_balance (eng : EngineState) (db : Ledger) :
    Except String (Ledger × List WriteOp) :=
  match get_db_balance db eng.ident eng.strategy_account eng.strategy_version with
  | .error m => .error m
  | .ok none => .ok (db, [])
  | .ok (some dbb) =>
    match eng.account_balance with
    | none => .error "AttributeError"
    | some ab =>
      let u := mkUpdates ab dbb
      if u.isEmptyDict then .ok (db, [])
      else
        .ok ({ db with balance := db.balance.map (fun r =>
                if r.strategy_account == eng.strategy_account &&
                   r.strategy_version == eng.strategy_version
                then applyUpdates u r else r) },
             [.updateBal])

/-- persist_position (engine.py lines 524-557): resolve the unique balance
row for the identity and `(strategy_account, strategy_version)` (skip when
absent, assertion error when more than one); delete the existing position
rows for that `balance_id` when `get_db_position` found any; then insert
every in-memory position row. -/
def persist_position (eng : EngineState) (db : Ledger) :
    Except String (Ledger × List WriteOp) :=
  match strategyFilter db eng.ident eng.strategy_account eng.strategy_version with
  | [] => .ok (db, [])
  | [r] =>
    match get_db_position db r.id with
    | .error m => .error m
    | .ok opt =>
      let step1 : Ledger × List WriteOp :=
        match opt with
        | some _ =>
          ({ db with position := db.position.filter (fun p => p.balance_id != r.id) },
           [.deletePos])
        | none => (db, [])
      .ok ({ step1.1 with position := step1.1.position ++ eng.position.map (mkPosRow r.id) },
           step1.2 ++ eng.position.map (fun _ => WriteOp.insertPos))
  | _ => .error "more than 1 records found in balance"

/-- The round-trip of spec section 8: persist the in-memory state, then
reload it through the two getters (`get_db_balance` for the account
balance, `get_db_position` for the strategy's positions, `None` read back
as an empty position set). -/
def roundTrip (eng : EngineState) (db : Ledger) (balance_id : Nat) :
    Except String (Option AccountBalance × List PositionData) := do
  let (db1, _) ← persist_account_balance eng db
  let (db2, _) ← persist_position eng db1
  let ob ← get_db_balance db2 eng.ident eng.strategy_account eng.strategy_version
  let op ← get_db_position db2 balance_id
  pure (ob, op.getD [])

/-! ### General list lemmas -/

theorem le_foldl_max (l : List Nat) (a : Nat) : a ≤ l.foldl Nat.max a := by
  induction l generalizing a with
  | nil => exact le_rfl
  | cons b t ih => exact le_trans (Nat.le_max_left a b) (ih (Nat.max a b))

theorem mem_le_foldl_max (l : List Nat) (a : Nat) : ∀ x ∈ l, x ≤ l.foldl Nat.max a := by
  induction l generalizing a with
  | nil => intro x hx; cases hx
  | cons b t ih =>
    intro x hx
    rcases List.mem_cons.mp hx with h | h
    · subst h; exact le_trans (Nat.le_max_right a x) (le_foldl_max t (Nat.max a x))
    · exact ih (Nat.max a b) x h

theorem eq_of_mem_of_id_eq (l : List BalanceRow)
    (hnd : (l.map (fun r => r.id)).Nodup) (d r : BalanceRow)
    (hd : d ∈ l) (hr : r ∈ l) (h : r.id = d.id) : r = d := by
  induction l with
  | nil => cases hd
  | cons a t ih =>
    rw [List.map_cons, List.nodup_cons] at hnd
    rcases List.mem_cons.mp hd with hda | hdt <;> rcases List.mem_cons.mp hr with hra | hrt
    · rw [hra, hda]
    · exfalso
      apply hnd.1
      rw [← hda, ← h]
      exact List.mem_map_of_mem (fun r => r.id) hrt
    · exfalso
      apply hnd.1
      have hid : a.id = d.id := by rw [← hra]; exact h
      rw [hid]
      exact List.mem_map_of_mem (fun r => r.id) hdt
    · exact ih hnd.2 hdt hrt

theorem map_ite_id (t : List BalanceRow) (d : BalanceRow)
    (f : BalanceRow → BalanceRow) (h : ∀ r ∈ t, ¬ r.id = d.id) :
    t.map (fun r => if r.id = d.id then f r else r) = t := by
  have : t.map (fun r => if r.id = d.id then f r else r) = t.map id :=
    List.map_eq_map_iff.mpr (by intro x hx; rw [if_neg (h x hx)]; rfl)
  rw [this, List.map_id]

theorem sum_map_update_at (l : List BalanceRow)
    (hnd : (l.map (fun r => r.id)).Nodup) (d : BalanceRow) (hd : d ∈ l)
    (F : BalanceRow → Rat) (f : BalanceRow → BalanceRow) :
    ((l.map (fun r => if r.id = d.id then f r else r)).map F).sum
      = (l.map F).sum - F d + F (f d) := by
  induction l with
  | nil => cases hd
  | cons a t ih =>
    rw [List.map_cons, List.nodup_cons] at hnd
    rcases List.mem_cons.mp hd with hda | hdt
    · have ht : ∀ r ∈ t, ¬ r.id = d.id := by
        intro r hr hc
        apply hnd.1
        rw [← hda, ← hc]
        exact List.mem_map_of_mem (fun r => r.id) hr
      rw [List.map_cons, map_ite_id t d f ht, if_pos (by rw [hda]),
          List.map_cons, List.sum_cons, List.map_cons, List.sum_cons, hda]
      ring
    · have ha : ¬ a.id = d.id := by
        intro hc
        exact hnd.1 (hc ▸ List.mem_map_of_mem (fun r => r.id) hdt)
      rw [List.map_cons, if_neg ha, List.map_cons, List.sum_cons,
          List.map_cons, List.sum_cons, ih hnd.2 hdt]
      ring

theorem find?_congr_pt (l : List BalanceRow) (p q : BalanceRow → Bool)
    (h : ∀ x ∈ l, p x = q x) : l.find? p = l.find? q := by
  induction l with
  | nil => rfl
  | cons a t ih =>
    by_cases hp : p a = true
    · rw [List.find?_cons_of_pos _ hp,
          List.find?_cons_of_pos _ ((h a (List.mem_cons_self a t)) ▸ hp)]
    · rw [List.find?_cons_of_neg _ hp,
          List.find?_cons_of_neg _ ((h a (List.mem_cons_self a t)) ▸ hp),
          ih (fun x hx => h x (List.mem_cons_of_mem a hx))]

/-! ### Shape lemmas for the branches of sync_broker_balance -/

theorem bootstrap_ok {eng : EngineState} {db : Ledger} {b : AccountBalance} {now : Nat}
    {db' : Ledger} {ws : List WriteOp}
    (h : bootstrap eng db b now = .ok (db', ws)) :
    ∃ pb, eng.account_balance = some pb ∧
      0 ≤ b.cash - pb.cash ∧ 0 ≤ b.power - pb.power ∧
      db' = { db with
              balance := db.balance ++
                [mkDefaultRow eng (bootstrapIds db).1 (bootstrapIds db).2
                   (b.cash - pb.cash) (b.power - pb.power) now db.nextId,
                 mkStrategyRow eng (bootstrapIds db).1 ((bootstrapIds db).2 + 1)
                   pb.cash pb.power now (db.nextId + 1)],
              nextId := db.nextId + 2 } ∧
      ws = [.insertBal, .insertBal] := by
  unfold bootstrap at h
  cases hab : eng.account_balance with
  | none => rw [hab] at h; exact Except.noConfusion h
  | some pb =>
    rw [hab] at h
    dsimp only at h
    refine ⟨pb, rfl, ?_⟩
    split at h
    · exact Except.noConfusion h
    · split at h
      · exact Except.noConfusion h
      · rename_i h1 h2
        simp only [Except.ok.injEq, Prod.mk.injEq] at h
        exact ⟨not_lt.mp h1, not_lt.mp h2, h.1.symm, h.2.symm⟩

theorem subsequent_ok {db : Ledger} {df : List BalanceRow} {b : AccountBalance}
    {db' : Ledger} {ws : List WriteOp}
    (h : subsequent db df b = .ok (db', ws)) :
    ∃ d, df.find? (fun r => r.strategy_account == "default") = some d ∧
      0 ≤ d.cash + (b.cash - (df.map (fun r => r.cash)).sum) ∧
      0 ≤ d.power + (b.power - (df.map (fun r => r.power)).sum) ∧
      db' = (if b.power - (df.map (fun r => r.power)).sum = 0
             then (if b.cash - (df.map (fun r => r.cash)).sum = 0 then db
                   else updateCashById db d.id
                          (d.cash + (b.cash - (df.map (fun r => r.cash)).sum)))
             else updatePowerById
                    (if b.cash - (df.map (fun r => r.cash)).sum = 0 then db
                     else updateCashById db d.id
                            (d.cash + (b.cash - (df.map (fun r => r.cash)).sum)))
                    d.id (d.power + (b.power - (df.map (fun r => r.power)).sum))) ∧
      ws = (if b.cash - (df.map (fun r => r.cash)).sum = 0 then []
            else [WriteOp.updateBal]) ++
           (if b.power - (df.map (fun r => r.power)).sum = 0 then []
            else [WriteOp.updateBal]) := by
  unfold subsequent at h
  cases hfind : df.find? (fun r => r.strategy_account == "default") with
  | none => rw [hfind] at h; exact Except.noConfusion h
  | some d =>
    rw [hfind] at h
    dsimp only at h
    refine ⟨d, rfl, ?_⟩
    split at h
    · exact Except.noConfusion h
    · split at h
      · exact Except.noConfusion h
      · rename_i h1 h2
        simp only [Except.ok.injEq, Prod.mk.injEq] at h
        by_cases hdc : b.cash - (df.map (fun r => r.cash)).sum = 0 <;>
          by_cases hdp : b.power - (df.map (fun r => r.power)).sum = 0
        · simp only [if_pos hdc, if_pos hdp] at h ⊢
          exact ⟨not_lt.mp h1, not_lt.mp h2, h.1.symm, h.2.symm⟩
        · simp only [if_pos hdc, if_neg hdp] at h ⊢
          exact ⟨not_lt.mp h1, not_lt.mp h2, h.1.symm, h.2.symm⟩
        · simp only [if_neg hdc, if_pos hdp] at h ⊢
          exact ⟨not_lt.mp h1, not_lt.mp h2, h.1.symm, h.2.symm⟩
        · simp only [if_neg hdc, if_neg hdp] at h ⊢
          exact ⟨not_lt.mp h1, not_lt.mp h2, h.1.symm, h.2.symm⟩

theorem sync_some_ok_cases {eng : EngineState} {db : Ledger} {b : AccountBalance}
    {now : Nat} {eng' : EngineState} {db' : Ledger} {ws : List WriteOp}
    (h : sync_broker_balance eng db (some b) now = .ok (eng', db', ws)) :
    eng' = { eng with account_balance := eng'.account_balance } ∧
    get_db_balance db' eng.ident eng.strategy_account eng.strategy_version
      = .ok eng'.account_balance ∧
    ((balanceDf db eng.ident = [] ∧ bootstrap eng db b now = .ok (db', ws)) ∨
     (balanceDf db eng.ident ≠ [] ∧
       subsequent db (balanceDf db eng.ident) b = .ok (db', ws))) := by
  unfold sync_broker_balance at h
  dsimp only at h
  by_cases hempty : (balanceDf db eng.ident).isEmpty
  · rw [if_pos hempty] at h
    cases hstep : bootstrap eng db b now with
    | error e => rw [hstep] at h; exact Except.noConfusion h
    | ok pair =>
      obtain ⟨db0, ws0⟩ := pair
      rw [hstep] at h
      dsimp only at h
      cases hget : get_db_balance db0 eng.ident eng.strategy_account eng.strategy_version with
      | error m => rw [hget] at h; exact Except.noConfusion h
      | ok ob =>
        rw [hget] at h
        simp only [Except.ok.injEq, Prod.mk.injEq] at h
        obtain ⟨he, hdb, hws⟩ := h
        subst hdb hws
        refine ⟨?_, ?_, Or.inl ⟨List.isEmpty_iff.mp hempty, rfl⟩⟩
        · rw [← he]
        · rw [← he]; exact hget
  · rw [if_neg hempty] at h
    cases hstep : subsequent db (balanceDf db eng.ident) b with
    | error e => rw [hstep] at h; exact Except.noConfusion h
    | ok pair =>
      obtain ⟨db0, ws0⟩ := pair
      rw [hstep] at h
      dsimp only at h
      cases hget : get_db_balance db0 eng.ident eng.strategy_account eng.strategy_version with
      | error m => rw [hget] at h; exact Except.noConfusion h
      | ok ob =>
        rw [hget] at h
        simp only [Except.ok.injEq, Prod.mk.injEq] at h
        obtain ⟨he, hdb, hws⟩ := h
        subst hdb hws
        refine ⟨?_, ?_, Or.inr ⟨fun hc => hempty (by rw [hc]; rfl), rfl⟩⟩
        · rw [← he]
        · rw [← he]; exact hget

theorem map_eq_self_of_mem {l : List BalanceRow} {g : BalanceRow → BalanceRow}
    (h : ∀ r ∈ l, g r = r) : l.map g = l := by
  rw [List.map_eq_map_iff.mpr
        (by intro x hx; rw [h x hx]; rfl : ∀ x ∈ l, g x = id x),
      List.map_id]

/-- After a successful bootstrap the identity's filtered frame consists of
exactly the two inserted rows. -/
theorem bootstrap_post {eng : EngineState} {db : Ledger} {b : AccountBalance} {now : Nat}
    {db' : Ledger} {ws : List WriteOp}
    (hdf : balanceDf db eng.ident = [])
    (h : bootstrap eng db b now = .ok (db', ws)) :
    ∃ pb, eng.account_balance = some pb ∧
      0 ≤ b.cash - pb.cash ∧ 0 ≤ b.power - pb.power ∧
      balanceDf db' eng.ident =
        [mkDefaultRow eng (bootstrapIds db).1 (bootstrapIds db).2
           (b.cash - pb.cash) (b.power - pb.power) now db.nextId,
         mkStrategyRow eng (bootstrapIds db).1 ((bootstrapIds db).2 + 1)
           pb.cash pb.power now (db.nextId + 1)] ∧
      db'.balance = db.balance ++
        [mkDefaultRow eng (bootstrapIds db).1 (bootstrapIds db).2
           (b.cash - pb.cash) (b.power - pb.power) now db.nextId,
         mkStrategyRow eng (bootstrapIds db).1 ((bootstrapIds db).2 + 1)
           pb.cash pb.power now (db.nextId + 1)] := by
  obtain ⟨pb, hab, h1, h2, hdb, hws⟩ := bootstrap_ok h
  refine ⟨pb, hab, h1, h2, ?_, by rw [hdb]⟩
  have hbal : db'.balance = db.balance ++
      [mkDefaultRow eng (bootstrapIds db).1 (bootstrapIds db).2
         (b.cash - pb.cash) (b.power - pb.power) now db.nextId,
       mkStrategyRow eng (bootstrapIds db).1 ((bootstrapIds db).2 + 1)
         pb.cash pb.power now (db.nextId + 1)] := by rw [hdb]
  show db'.balance.filter (fun r => r.ident == eng.ident) = _
  rw [hbal, List.filter_append,
      show db.balance.filter (fun r => r.ident == eng.ident) = [] from hdf]
  simp [mkDefaultRow, mkStrategyRow]

/-- After a successful subsequent-branch run, the balance table is the old
one with the first default row's cash and power shifted by the two deltas,
and nothing else changed. -/
theorem subsequent_post {eng : EngineState} {db : Ledger} {b : AccountBalance}
    {db' : Ledger} {ws : List WriteOp}
    (hnd : (db.balance.map (fun r => r.id)).Nodup)
    (h : subsequent db (balanceDf db eng.ident) b = .ok (db', ws)) :
    ∃ d, (balanceDf db eng.ident).find? (fun r => r.strategy_account == "default")
        = some d ∧
      d ∈ db.balance ∧
      0 ≤ d.cash + (b.cash - ((balanceDf db eng.ident).map (fun r => r.cash)).sum) ∧
      0 ≤ d.power + (b.power - ((balanceDf db eng.ident).map (fun r => r.power)).sum) ∧
      db'.balance = db.balance.map (fun r =>
        if r.id = d.id then
          { r with
            cash := d.cash +
              (b.cash - ((balanceDf db eng.ident).map (fun r => r.cash)).sum),
            power := d.power +
              (b.power - ((balanceDf db eng.ident).map (fun r => r.power)).sum) }
        else r) ∧
      db'.position = db.position := by
  obtain ⟨d, hfind, h1, h2, hdb, hws⟩ := subsequent_ok h
  have hdmem : d ∈ db.balance :=
    List.mem_of_mem_filter (List.mem_of_find?_eq_some hfind)
  refine ⟨d, hfind, hdmem, h1, h2, ?_, ?_⟩
  · by_cases hdc : b.cash - ((balanceDf db eng.ident).map (fun r => r.cash)).sum = 0 <;>
      by_cases hdp : b.power - ((balanceDf db eng.ident).map (fun r => r.power)).sum = 0
    · rw [hdb]
      simp only [if_pos hdc, if_pos hdp, hdc, hdp, add_zero]
      refine (map_eq_self_of_mem ?_).symm
      intro r hr
      by_cases hrid : r.id = d.id
      · rw [if_pos hrid, eq_of_mem_of_id_eq db.balance hnd d r hdmem hr hrid]
      · rw [if_neg hrid]
    · rw [hdb]
      simp only [if_pos hdc, if_neg hdp, hdc, add_zero, updatePowerById]
      refine List.map_eq_map_iff.mpr ?_
      intro r hr
      by_cases hrid : r.id = d.id
      · rw [if_pos hrid, if_pos hrid,
            eq_of_mem_of_id_eq db.balance hnd d r hdmem hr hrid]
      · rw [if_neg hrid, if_neg hrid]
    · rw [hdb]
      simp only [if_neg hdc, if_pos hdp, hdp, add_zero, updateCashById]
      refine List.map_eq_map_iff.mpr ?_
      intro r hr
      by_cases hrid : r.id = d.id
      · rw [if_pos hrid, if_pos hrid,
            eq_of_mem_of_id_eq db.balance hnd d r hdmem hr hrid]
      · rw [if_neg hrid, if_neg hrid]
    · rw [hdb]
      simp only [if_neg hdc, if_neg hdp, updateCashById, updatePowerById, List.map_map]
      refine List.map_eq_map_iff.mpr ?_
      intro r hr
      by_cases hrid : r.id = d.id
      · simp [hrid]
      · simp [hrid]
  · by_cases hdc : b.cash - ((balanceDf db eng.ident).map (fun r => r.cash)).sum = 0 <;>
      by_cases hdp : b.power - ((balanceDf db eng.ident).map (fun r => r.power)).sum = 0 <;>
      rw [hdb] <;>
      simp only [if_pos, if_neg, hdc, hdp, if_true, if_false, updateCashById,
        updatePowerById]

/-- Facts established by any successful `sync_broker_balance` call with a
broker snapshot: the engine identity is unchanged, the identity's filtered
frame is non-empty, its cash and power sums equal the broker snapshot
(conservation), its first default row is non-negative in both fields, and
the portfolio balance equals the ledger re-read. -/
theorem sync_balance_ok_post {eng : EngineState} {db : Ledger} {b : AccountBalance}
    {now : Nat} {eng' : EngineState} {db' : Ledger} {ws : List WriteOp}
    (hnd : (db.balance.map (fun r => r.id)).Nodup)
    (h : sync_broker_balance eng db (some b) now = .ok (eng', db', ws)) :
    eng'.ident = eng.ident ∧ eng'.strategy_account = eng.strategy_account ∧
    eng'.strategy_version = eng.strategy_version ∧
    balanceDf db' eng.ident ≠ [] ∧
    ((balanceDf db' eng.ident).map (fun r => r.cash)).sum = b.cash ∧
    ((balanceDf db' eng.ident).map (fun r => r.power)).sum = b.power ∧
    (∃ d', (balanceDf db' eng.ident).find? (fun r => r.strategy_account == "default")
        = some d' ∧ 0 ≤ d'.cash ∧ 0 ≤ d'.power) ∧
    get_db_balance db' eng.ident eng.strategy_account eng.strategy_version
      = .ok eng'.account_balance := by
  obtain ⟨heng, hget, hcase⟩ := sync_some_ok_cases h
  have hid : eng'.ident = eng.ident := by rw [heng]
  have hsa : eng'.strategy_account = eng.strategy_account := by rw [heng]
  have hsv : eng'.strategy_version = eng.strategy_version := by rw [heng]
  rcases hcase with ⟨hdf, hboot⟩ | ⟨hne, hsub⟩
  · obtain ⟨pb, hab, h1, h2, hfilter, hbal⟩ := bootstrap_post hdf hboot
    refine ⟨hid, hsa, hsv, ?_, ?_, ?_, ?_, hget⟩
    · rw [hfilter]; exact List.cons_ne_nil _ _
    · rw [hfilter]
      simp only [List.map_cons, List.map_nil, List.sum_cons, List.sum_nil,
        mkDefaultRow, mkStrategyRow]
      ring
    · rw [hfilter]
      simp only [List.map_cons, List.map_nil, List.sum_cons, List.sum_nil,
        mkDefaultRow, mkStrategyRow]
      ring
    · refine ⟨mkDefaultRow eng (bootstrapIds db).1 (bootstrapIds db).2
          (b.cash - pb.cash) (b.power - pb.power) now db.nextId, ?_, h1, h2⟩
      rw [hfilter]
      exact List.find?_cons_of_pos _ (by rfl)
  · obtain ⟨d, hfind, hdmem, h1, h2, hbal, hpos⟩ := subsequent_post hnd hsub
    have hgid : ∀ r : BalanceRow,
        ((if r.id = d.id then
          { r with
            cash := d.cash +
              (b.cash - ((balanceDf db eng.ident).map (fun r => r.cash)).sum),
            power := d.power +
              (b.power - ((balanceDf db eng.ident).map (fun r => r.power)).sum) }
          else r) : BalanceRow).ident = r.ident := by
      intro r; by_cases hrid : r.id = d.id
      · rw [if_pos hrid]
      · rw [if_neg hrid]
    have hgsa : ∀ r : BalanceRow,
        ((if r.id = d.id then
          { r with
            cash := d.cash +
              (b.cash - ((balanceDf db eng.ident).map (fun r => r.cash)).sum),
            power := d.power +
              (b.power - ((balanceDf db eng.ident).map (fun r => r.power)).sum) }
          else r) : BalanceRow).strategy_account = r.strategy_account := by
      intro r; by_cases hrid : r.id = d.id
      · rw [if_pos hrid]
      · rw [if_neg hrid]
    have hfilter : balanceDf db' eng.ident = (balanceDf db eng.ident).map (fun r =>
        if r.id = d.id then
          { r with
            cash := d.cash +
              (b.cash - ((balanceDf db eng.ident).map (fun r => r.cash)).sum),
            power := d.power +
              (b.power - ((balanceDf db eng.ident).map (fun r => r.power)).sum) }
          else r) := by
      show db'.balance.filter _ = _
      rw [hbal, List.filter_map]
      show (db.balance.filter _).map _ = (db.balance.filter _).map _
      rw [List.filter_congr
        (by intro r hr; simp only [Function.comp_apply]; rw [hgid r])]
    have hndf : ((balanceDf db eng.ident).map (fun r => r.id)).Nodup := by
      have hsub : (balanceDf db eng.ident).Sublist db.balance := List.filter_sublist _
      exact List.Nodup.sublist (List.Sublist.map (fun r => r.id) hsub) hnd
    have hdf : d ∈ balanceDf db eng.ident := List.mem_of_find?_eq_some hfind
    refine ⟨hid, hsa, hsv, ?_, ?_, ?_, ?_, hget⟩
    · rw [hfilter]
      intro hc
      exact hne (List.map_eq_nil_iff.mp hc)
    · rw [hfilter,
        sum_map_update_at (balanceDf db eng.ident) hndf d hdf (fun r => r.cash) _]
      ring
    · rw [hfilter,
        sum_map_update_at (balanceDf db eng.ident) hndf d hdf (fun r => r.power) _]
      ring
    · refine ⟨{ d with
          cash := d.cash +
            (b.cash - ((balanceDf db eng.ident).map (fun r => r.cash)).sum),
          power := d.power +
            (b.power - ((balanceDf db eng.ident).map (fun r => r.power)).sum) },
        ?_, h1, h2⟩
      rw [hfilter, List.find?_map,
        find?_congr_pt _ _ _
          (by intro r hr; simp only [Function.comp_apply]; rw [hgsa r]),
        hfind]
      simp

/-- C9: running `sync_broker_balance` twice in a row with an unchanged
broker snapshot (ledger configured, first call succeeded) performs zero
ledger writes on the second call: both per-field deltas are exactly zero
(the first call made the filtered frame's sums equal the broker values),
so each write is skipped and the engine and ledger states are returned
unchanged with an empty write log. -/
theorem second_sync_performs_no_writes (eng : EngineState) (db : Ledger)
    (b : AccountBalance) (now now2 : Nat) (eng1 : EngineState) (db1 : Ledger)
    (ws1 : List WriteOp)
    (hnd : (db.balance.map (fun r => r.id)).Nodup)
    (h1 : sync_broker_balance eng db (some b) now = .ok (eng1, db1, ws1)) :
    sync_broker_balance eng1 db1 (some b) now2 = .ok (eng1, db1, []) := by
  obtain ⟨heng, -, -⟩ := sync_some_ok_cases h1
  obtain ⟨hid, hsa, hsv, hne, hsc, hsp, ⟨d', hfind, hdc, hdp⟩, hget⟩ :=
    sync_balance_ok_post hnd h1
  rw [heng]
  unfold sync_broker_balance
  dsimp only
  rw [if_neg (fun hc => hne (List.isEmpty_iff.mp hc))]
  unfold subsequent
  rw [hfind]
  dsimp only
  rw [hsc, hsp, sub_self, sub_self, add_zero, add_zero]
  rw [if_neg (not_lt.mpr hdc), if_pos rfl, if_neg (not_lt.mpr hdp), if_pos rfl]
  dsimp only
  rw [hget]
  rfl

/-- A successful `sync_broker_balance` call preserves the grouping
coherence between the identity columns and `broker_account_id`: rows
matching the identity are exactly the rows carrying the identity's
`broker_account_id` (the bootstrap inserts two rows with a fresh id larger
than every existing one; the subsequent branch only changes cash/power). -/
theorem sync_balance_ok_coherence {eng : EngineState} {db : Ledger} {b : AccountBalance}
    {now : Nat} {eng' : EngineState} {db' : Ledger} {ws : List WriteOp}
    (hnd : (db.balance.map (fun r => r.id)).Nodup)
    (hcoh : ∀ r ∈ db.balance, ∀ s ∈ db.balance, r.ident = eng.ident →
        (s.broker_account_id = r.broker_account_id ↔ s.ident = eng.ident))
    (h : sync_broker_balance eng db (some b) now = .ok (eng', db', ws)) :
    ∀ r ∈ db'.balance, ∀ s ∈ db'.balance, r.ident = eng.ident →
        (s.broker_account_id = r.broker_account_id ↔ s.ident = eng.ident) := by
  obtain ⟨heng, hget, hcase⟩ := sync_some_ok_cases h
  rcases hcase with ⟨hdf, hboot⟩ | ⟨hne, hsub⟩
  · obtain ⟨pb, hab, h1, h2, hdbeq, hws⟩ := bootstrap_ok hboot
    have hbal : db'.balance = db.balance ++
        [mkDefaultRow eng (bootstrapIds db).1 (bootstrapIds db).2
           (b.cash - pb.cash) (b.power - pb.power) now db.nextId,
         mkStrategyRow eng (bootstrapIds db).1 ((bootstrapIds db).2 + 1)
           pb.cash pb.power now (db.nextId + 1)] := by rw [hdbeq]
    have hold : ∀ r ∈ db.balance, ¬ r.ident = eng.ident := by
      intro r hr hc
      have hnp := List.filter_eq_nil_iff.mp hdf r hr
      exact hnp (beq_iff_eq.mpr hc)
    have hfresh : ∀ r ∈ db.balance, ¬ r.broker_account_id = (bootstrapIds db).1 := by
      intro r hr hc
      cases hdb0 : db.balance with
      | nil => rw [hdb0] at hr; cases hr
      | cons a t =>
        have hle : r.broker_account_id ≤
            ((a :: t).map (fun r => r.broker_account_id)).foldl Nat.max 0 := by
          apply mem_le_foldl_max
          rw [← hdb0]
          exact List.mem_map_of_mem _ hr
        have hB : (bootstrapIds db).1 =
            ((a :: t).map (fun r => r.broker_account_id)).foldl Nat.max 0 + 1 := by
          unfold bootstrapIds
          rw [hdb0]
        omega
    intro r hr s hs hrident
    rw [hbal] at hr hs
    rcases List.mem_append.mp hr with hrold | hrnew
    · exact absurd hrident (hold r hrold)
    · have hrB : r.broker_account_id = (bootstrapIds db).1 := by
        rcases List.mem_cons.mp hrnew with hre | hre2
        · rw [hre]; rfl
        · rcases List.mem_cons.mp hre2 with hre | hre3
          · rw [hre]; rfl
          · cases hre3
      rcases List.mem_append.mp hs with hsold | hsnew
      · constructor
        · intro hc
          exact absurd (hrB ▸ hc) (hfresh s hsold)
        · intro hc
          exact absurd hc (hold s hsold)
      · constructor
        · intro _
          rcases List.mem_cons.mp hsnew with hse | hse2
          · rw [hse]; rfl
          · rcases List.mem_cons.mp hse2 with hse | hse3
            · rw [hse]; rfl
            · cases hse3
        · intro _
          rw [hrB]
          rcases List.mem_cons.mp hsnew with hse | hse2
          · rw [hse]; rfl
          · rcases List.mem_cons.mp hse2 with hse | hse3
            · rw [hse]; rfl
            · cases hse3
  · obtain ⟨d, hfind, hdmem, h1, h2, hbal, hpos⟩ := subsequent_post hnd hsub
    have hgident : ∀ r : BalanceRow,
        ((if r.id = d.id then
          { r with
            cash := d.cash +
              (b.cash - ((balanceDf db eng.ident).map (fun r => r.cash)).sum),
            power := d.power +
              (b.power - ((balanceDf db eng.ident).map (fun r => r.power)).sum) }
          else r) : BalanceRow).ident = r.ident := by
      intro r; by_cases hrid : r.id = d.id
      · rw [if_pos hrid]
      · rw [if_neg hrid]
    have hgbaid : ∀ r : BalanceRow,
        ((if r.id = d.id then
          { r with
            cash := d.cash +
              (b.cash - ((balanceDf db eng.ident).map (fun r => r.cash)).sum),
            power := d.power +
              (b.power - ((balanceDf db eng.ident).map (fun r => r.power)).sum) }
          else r) : BalanceRow).broker_account_id = r.broker_account_id := by
      intro r; by_cases hrid : r.id = d.id
      · rw [if_pos hrid]
      · rw [if_neg hrid]
    intro r hr s hs hrident
    rw [hbal] at hr hs
    obtain ⟨r0, hr0, hr0eq⟩ := List.mem_map.mp hr
    obtain ⟨s0, hs0, hs0eq⟩ := List.mem_map.mp hs
    rw [← hr0eq] at hrident ⊢
    rw [← hs0eq]
    rw [hgident r0] at hrident
    rw [hgident s0, hgbaid s0, hgbaid r0]
    exact hcoh r0 hr0 s0 hs0 hrident

/-- C1: after every successful `sync_broker_balance` call with an
available broker snapshot, the sum of `cash` (and of `power`) over all
balance rows sharing the `broker_account_id` of the identity's broker
account equals the broker-reported cash (resp. power) of that snapshot.
The hypotheses say the ledger is well-formed: row ids are unique and, on
entry, the rows matching the identity are exactly the rows of one
`broker_account_id` group; `baid` is the identity's broker account id in
the post state, witnessed by any post-state row that matches the identity
and carries it. -/
theorem sync_broker_balance_conserves_totals (eng : EngineState) (db : Ledger)
    (b : AccountBalance) (now : Nat) (eng1 : EngineState) (db1 : Ledger)
    (ws : List WriteOp) (baid : Nat)
    (hnd : (db.balance.map (fun r => r.id)).Nodup)
    (hcoh : ∀ r ∈ db.balance, ∀ s ∈ db.balance, r.ident = eng.ident →
        (s.broker_account_id = r.broker_account_id ↔ s.ident = eng.ident))
    (h : sync_broker_balance eng db (some b) now = .ok (eng1, db1, ws))
    (hbaid : ∃ r, r ∈ db1.balance ∧ r.ident = eng.ident ∧ r.broker_account_id = baid) :
    ((db1.balance.filter (fun s => s.broker_account_id == baid)).map
        (fun r => r.cash)).sum = b.cash ∧
    ((db1.balance.filter (fun s => s.broker_account_id == baid)).map
        (fun r => r.power)).sum = b.power := by
  obtain ⟨r0, hr0, hr0i, hr0b⟩ := hbaid
  have hcoh1 := sync_balance_ok_coherence hnd hcoh h
  have hpt : ∀ s ∈ db1.balance, (s.broker_account_id == baid) = (s.ident == eng.ident) := by
    intro s hs
    have hiff := hcoh1 r0 hr0 s hs hr0i
    rw [hr0b] at hiff
    apply Bool.coe_iff_coe.mp
    simp only [beq_iff_eq]
    exact hiff
  obtain ⟨-, -, -, -, hsc, hsp, -, -⟩ := sync_balance_ok_post hnd h
  rw [List.filter_congr hpt]
  exact ⟨hsc, hsp⟩

/-- C4 amended: the subsequent-times branch checks and writes the fields
in the order cash, power; when the non-negativity check fails on the FIRST
field (cash), the call raises before any write and the ledger is returned
entirely unchanged with an empty write log.  (When the check fails on
power instead, the cash update may already have been written — see the
counterexample.) -/
theorem cash_check_failure_writes_nothing (eng : EngineState) (db : Ledger)
    (b : AccountBalance) (now : Nat) (d : BalanceRow)
    (hne : balanceDf db eng.ident ≠ [])
    (hfind : (balanceDf db eng.ident).find? (fun r => r.strategy_account == "default")
        = some d)
    (hfail : d.cash + (b.cash - ((balanceDf db eng.ident).map (fun r => r.cash)).sum) < 0) :
    sync_broker_balance eng db (some b) now = .error ⟨"negative cash", db, []⟩ := by
  unfold sync_broker_balance
  dsimp only
  rw [if_neg (fun hc => hne (List.isEmpty_iff.mp hc))]
  unfold subsequent
  rw [hfind]
  dsimp only
  rw [if_pos hfail]

/-- C5: the remainder computation of `sync_broker_position` on a broker
position matching a db position on `(security, direction)`:
`remainder.quantity = broker.quantity - db.quantity`; when positive, its
price is `(broker.price*broker.qty - db.price*db.qty) / remainder.qty`;
when zero, the sentinel price -1 is set; when negative, the call raises a
fatal error. -/
theorem remainder_computation_cases (brk dbp : PositionData)
    (hsec : brk.security = dbp.security) (hdir : brk.direction = dbp.direction) :
    (0 < brk.quantity - dbp.quantity →
      subtractDbPos dbp [brk] = .ok [⟨dbp.security, dbp.direction,
        (brk.holding_price * brk.quantity - dbp.holding_price * dbp.quantity) /
          (brk.quantity - dbp.quantity),
        brk.quantity - dbp.quantity, dbp.update_time⟩]) ∧
    (brk.quantity - dbp.quantity = 0 →
      subtractDbPos dbp [brk] = .ok [⟨dbp.security, dbp.direction, -1, 0,
        dbp.update_time⟩]) ∧
    (brk.quantity - dbp.quantity < 0 →
      subtractDbPos dbp [brk] = .error "db position larger than broker position") := by
  have hmatch : (brk.security == dbp.security && brk.direction == dbp.direction) = true := by
    simp [hsec, hdir]
  refine ⟨?_, ?_, ?_⟩
  · intro hq
    unfold subtractDbPos
    rw [if_pos hmatch]
    unfold remainderOf
    dsimp only
    rw [if_pos hq]
    rfl
  · intro hq
    unfold subtractDbPos
    rw [if_pos hmatch]
    unfold remainderOf
    dsimp only
    rw [if_neg (by rw [hq]; exact lt_irrefl 0), if_pos hq, hq]
    rfl
  · intro hq
    unfold subtractDbPos
    rw [if_pos hmatch]
    unfold remainderOf
    dsimp only
    rw [if_neg (not_lt.mpr (le_of_lt hq)), if_neg (ne_of_lt hq)]

/-- C6 amended: a db position row whose `(security, direction)` key
matches no broker position is NOT treated as an implicit zero broker
quantity: the inner subtraction loop leaves the broker position list
entirely unchanged and raises no error. -/
theorem unmatched_db_row_leaves_broker_list (dbp : PositionData)
    (brks : List PositionData)
    (h : ∀ brk ∈ brks, ¬ (brk.security = dbp.security ∧ brk.direction = dbp.direction)) :
    subtractDbPos dbp brks = .ok brks := by
  induction brks with
  | nil => rfl
  | cons brk rest ih =>
    have hb : ¬ ((brk.security == dbp.security && brk.direction == dbp.direction) = true) := by
      simp only [Bool.and_eq_true, beq_iff_eq]
      exact h brk (List.mem_cons_self brk rest)
    unfold subtractDbPos
    rw [if_neg hb]
    dsimp only
    rw [ih (fun x hx => h x (List.mem_cons_of_mem brk hx))]

/-- C7 amended: in the delete-then-reinsert of the default bucket (the
branch of `sync_broker_position` taken when position rows exist), every
position row inserted by the call has strictly positive quantity — the
reinsert loop is guarded by `quantity > 0`.  (The first-time position
bootstrap has no such guard — see the counterexample.) -/
theorem reinserted_default_rows_positive (eng : EngineState) (db : Ledger)
    (bps : List PositionData) (eng' : EngineState) (db' : Ledger) (ws : List WriteOp)
    (hnonempty : (positionDf db eng.ident).isEmpty = false)
    (h : sync_broker_position eng db (some bps) = .ok (eng', db', ws)) :
    ∀ p ∈ db'.position, p ∉ db.position → 0 < p.quantity := by
  unfold sync_broker_position at h
  dsimp only at h
  split at h
  · exact Except.noConfusion h
  · split at h
    · exact Except.noConfusion h
    · split at h
      · split at h
        · rename_i hpe
          rw [hnonempty] at hpe
          exact Bool.noConfusion hpe
        · split at h
          · exact Except.noConfusion h
          · split at h
            · exact Except.noConfusion h
            · rename_i defaultRow stratRow hdef hpe brks2 hred posOpt hget
              simp only [Except.ok.injEq, Prod.mk.injEq] at h
              obtain ⟨-, hdb, -⟩ := h
              intro p hp hpold
              rw [← hdb] at hp
              dsimp only at hp
              rcases List.mem_append.mp hp with hkeep | hnew
              · exact absurd (List.mem_of_mem_filter hkeep) hpold
              · obtain ⟨bp, hbp, hbpeq⟩ := List.mem_map.mp hnew
                have hbp2 := List.mem_filter.mp hbp
                rw [← hbpeq]
                exact of_decide_eq_true hbp2.2
      · exact Except.noConfusion h

/-! ### Lemmas for the persistence round-trip -/

theorem parseRow_mkPosRow (i : Nat) (pd : PositionData) :
    parseRow (mkPosRow i pd) = .ok pd := by
  cases pd with
  | mk sec dir hp q ut =>
    cases sec
    cases dir <;> rfl

theorem buildPosition_map (i : Nat) (l : List PositionData) (acc : List PositionData) :
    buildPosition (l.map (mkPosRow i)) acc = .ok (l.foldl positionUpdate acc) := by
  induction l generalizing acc with
  | nil => rfl
  | cons p t ih =>
    show buildPosition (mkPosRow i p :: t.map (mkPosRow i)) acc = _
    unfold buildPosition
    rw [parseRow_mkPosRow]
    exact ih (positionUpdate acc p)

theorem foldl_positionUpdate_disjoint (l : List PositionData) :
    ∀ acc : List PositionData,
    (∀ a ∈ acc, ∀ q ∈ l, ¬ (a.security = q.security ∧ a.direction = q.direction)) →
    l.Pairwise (fun p q => ¬ (p.security = q.security ∧ p.direction = q.direction)) →
    l.foldl positionUpdate acc = acc ++ l := by
  induction l with
  | nil => intro acc _ _; simp
  | cons p t ih =>
    intro acc hdisj hpair
    rw [List.foldl_cons]
    have hany : acc.any (fun q =>
        q.security == p.security && q.direction == p.direction) = false := by
      rw [List.any_eq_false]
      intro q hq
      simp only [Bool.and_eq_true, beq_iff_eq]
      exact hdisj q hq p (List.mem_cons_self p t)
    have hupd : positionUpdate acc p = acc ++ [p] := by
      unfold positionUpdate
      rw [if_neg (by rw [hany]; exact Bool.false_ne_true)]
    obtain ⟨hhead, htail⟩ := List.pairwise_cons.mp hpair
    rw [hupd, ih (acc ++ [p]) ?_ htail]
    · rw [List.append_assoc]
      rfl
    · intro a ha q hq
      rcases List.mem_append.mp ha with haa | hap
      · exact hdisj a haa q (List.mem_cons_of_mem p hq)
      · rw [List.mem_singleton.mp hap]
        exact hhead q hq

theorem buildPosition_exists_ok (rows : List PositionRow) :
    ∀ acc : List PositionData,
    (∀ row ∈ rows, row.direction = "LONG" ∨ row.direction = "SHORT" ∨
      row.direction = "NET") →
    ∃ pos, buildPosition rows acc = .ok pos := by
  induction rows with
  | nil => intro acc _; exact ⟨acc, rfl⟩
  | cons row rest ih =>
    intro acc hvalid
    have hconv : ∃ d, convert_direction_db2qt row.direction = .ok d := by
      rcases hvalid row (List.mem_cons_self _ _) with h | h | h <;>
        rw [h] <;> exact ⟨_, rfl⟩
    obtain ⟨d, hd⟩ := hconv
    unfold buildPosition parseRow
    rw [hd]
    dsimp only
    exact ih _ (fun x hx => hvalid x (List.mem_cons_of_mem _ hx))

theorem mkUpdates_isEmpty_iff (ab dbb : AccountBalance) :
    (mkUpdates ab dbb).isEmptyDict = true ↔ ab = dbb := by
  cases ab with
  | mk ac ap am an =>
    cases dbb with
    | mk bc bp bm bn =>
      unfold mkUpdates BalUpdates.isEmptyDict
      dsimp only
      by_cases h1 : ac = bc <;> by_cases h2 : ap = bp <;> by_cases h3 : am = bm <;>
        by_cases h4 : an = bn <;>
        simp_all [AccountBalance.mk.injEq]

theorem applyUpdates_mkUpdates (ab : AccountBalance) (r : BalanceRow) :
    applyUpdates (mkUpdates ab
      ⟨r.cash, r.power, r.max_power_short, r.net_cash_power⟩) r =
    { r with
      cash := ab.cash
      power := ab.power
      max_power_short := ab.max_power_short
      net_cash_power := ab.net_cash_power } := by
  unfold mkUpdates applyUpdates
  dsimp only
  by_cases h1 : ab.cash = r.cash <;> by_cases h2 : ab.power = r.power <;>
    by_cases h3 : ab.max_power_short = r.max_power_short <;>
    by_cases h4 : ab.net_cash_power = r.net_cash_power <;>
    simp [h1, h2, h3, h4]

theorem filter_bne_beq_nil (l : List PositionRow) (i : Nat) :
    (l.filter (fun p => p.balance_id != i)).filter (fun p => p.balance_id == i) = [] := by
  rw [List.filter_filter]
  apply List.filter_eq_nil_iff.mpr
  intro p _
  simp [bne]

theorem filter_map_mkPosRow (l : List PositionData) (i : Nat) :
    (l.map (mkPosRow i)).filter (fun p => p.balance_id == i) = l.map (mkPosRow i) := by
  apply List.filter_eq_self.mpr
  intro a ha
  obtain ⟨pd, -, hpd⟩ := List.mem_map.mp ha
  rw [← hpd]
  exact beq_iff_eq.mpr rfl

theorem strategyFilter_persist_map (db : Ledger) (i : BrokerIdent) (sa sv : String)
    (u : BalUpdates) :
    strategyFilter (⟨db.balance.map (fun row =>
        if row.strategy_account == sa && row.strategy_version == sv
        then applyUpdates u row else row), db.position, db.nextId⟩ : Ledger) i sa sv =
      (strategyFilter db i sa sv).map (fun row =>
        if row.strategy_account == sa && row.strategy_version == sv
        then applyUpdates u row else row) := by
  unfold strategyFilter
  dsimp only
  rw [List.filter_map]
  congr 1
  apply List.filter_congr
  intro x hx
  by_cases hcond : (x.strategy_account == sa && x.strategy_version == sv) = true
  · simp only [Function.comp_apply, if_pos hcond, applyUpdates]
  · simp only [Function.comp_apply, if_neg hcond]

/-- C10: for an in-memory portfolio state whose balance row already exists
(uniquely) in the ledger, running the persistence step
(`persist_account_balance` then `persist_position`) followed by reloading
through `get_db_balance` and `get_db_position` reproduces exactly the
in-memory account balance fields and the exact position set that was
persisted (a `None` position read-back stands for the empty set).  The
side conditions say the pre-existing position rows for this balance id
carry valid direction strings (so the source's read-before-delete does not
raise) and that the in-memory position table has unique
`(security, direction)` keys, which is its data-model invariant. -/
theorem persist_reload_round_trip (eng : EngineState) (db : Ledger)
    (ab : AccountBalance) (r : BalanceRow)
    (hab : eng.account_balance = some ab)
    (hrow : strategyFilter db eng.ident eng.strategy_account eng.strategy_version = [r])
    (hvalid : ∀ p ∈ db.position, p.balance_id = r.id →
        p.direction = "LONG" ∨ p.direction = "SHORT" ∨ p.direction = "NET")
    (hkeys : eng.position.Pairwise (fun p q =>
        ¬ (p.security = q.security ∧ p.direction = q.direction))) :
    roundTrip eng db r.id = .ok (some ab, eng.position) := by
  have hg1 : get_db_balance db eng.ident eng.strategy_account eng.strategy_version
      = .ok (some ⟨r.cash, r.power, r.max_power_short, r.net_cash_power⟩) := by
    unfold get_db_balance
    rw [hrow]
  have hpr : (r.ident == eng.ident && r.strategy_account == eng.strategy_account &&
      r.strategy_version == eng.strategy_version) = true := by
    have hmem : r ∈ strategyFilter db eng.ident eng.strategy_account eng.strategy_version := by
      rw [hrow]; exact List.mem_singleton.mpr rfl
    exact (List.mem_filter.mp hmem).2
  obtain ⟨⟨hpi, hpsa⟩, hpsv⟩ :
      ((r.ident == eng.ident) = true ∧ (r.strategy_account == eng.strategy_account) = true) ∧
      (r.strategy_version == eng.strategy_version) = true := by
    simpa only [Bool.and_eq_true] using hpr
  obtain ⟨db1, w1, hpab, hbal1, hpos1⟩ :
      ∃ db1 w1, persist_account_balance eng db = .ok (db1, w1) ∧
        strategyFilter db1 eng.ident eng.strategy_account eng.strategy_version =
          [{ r with
              cash := ab.cash
              power := ab.power
              max_power_short := ab.max_power_short
              net_cash_power := ab.net_cash_power }] ∧
        db1.position = db.position := by
    unfold persist_account_balance
    rw [hg1, hab]
    dsimp only
    by_cases hemp : (mkUpdates ab
        ⟨r.cash, r.power, r.max_power_short, r.net_cash_power⟩).isEmptyDict = true
    · rw [if_pos hemp]
      refine ⟨db, [], rfl, ?_, rfl⟩
      rw [hrow]
      have habr := (mkUpdates_isEmpty_iff ab _).mp hemp
      have hc : ab.cash = r.cash := by rw [habr]
      have hp : ab.power = r.power := by rw [habr]
      have hm : ab.max_power_short = r.max_power_short := by rw [habr]
      have hn : ab.net_cash_power = r.net_cash_power := by rw [habr]
      rw [hc, hp, hm, hn]
    · rw [if_neg hemp]
      refine ⟨_, _, rfl, ?_, rfl⟩
      rw [show ({ db with balance := db.balance.map (fun row =>
            if row.strategy_account == eng.strategy_account &&
               row.strategy_version == eng.strategy_version
            then applyUpdates (mkUpdates ab
              ⟨r.cash, r.power, r.max_power_short, r.net_cash_power⟩) row
            else row) } : Ledger) = (⟨db.balance.map (fun row =>
            if row.strategy_account == eng.strategy_account &&
               row.strategy_version == eng.strategy_version
            then applyUpdates (mkUpdates ab
              ⟨r.cash, r.power, r.max_power_short, r.net_cash_power⟩) row
            else row), db.position, db.nextId⟩ : Ledger) from rfl,
          strategyFilter_persist_map, hrow, List.map_singleton,
          if_pos (by rw [hpsa, hpsv]; rfl), applyUpdates_mkUpdates]
  obtain ⟨db2, w2, hpp, hbal2, hfpos⟩ :
      ∃ db2 w2, persist_position eng db1 = .ok (db2, w2) ∧
        db2.balance = db1.balance ∧
        db2.position.filter (fun p => p.balance_id == r.id) =
          eng.position.map (mkPosRow r.id) := by
    cases hrows : db.position.filter (fun p => p.balance_id == r.id) with
    | nil =>
      have hget0 : get_db_position db1 r.id = .ok none := by
        unfold get_db_position
        rw [hpos1, hrows]
      unfold persist_position
      rw [hbal1]
      dsimp only
      rw [hget0]
      dsimp only
      refine ⟨_, _, rfl, rfl, ?_⟩
      dsimp only
      rw [hpos1, List.filter_append, hrows, List.nil_append, filter_map_mkPosRow]
    | cons row rest =>
      have hvrows : ∀ p ∈ row :: rest,
          p.direction = "LONG" ∨ p.direction = "SHORT" ∨ p.direction = "NET" := by
        intro p hp
        have hpm : p ∈ db.position.filter (fun p => p.balance_id == r.id) := by
          rw [hrows]; exact hp
        have hm := List.mem_filter.mp hpm
        exact hvalid p hm.1 (beq_iff_eq.mp hm.2)
      obtain ⟨pos, hbuild⟩ := buildPosition_exists_ok (row :: rest) [] hvrows
      have hget1 : get_db_position db1 r.id = .ok (some pos) := by
        unfold get_db_position
        rw [hpos1, hrows]
        dsimp only
        rw [hbuild]
      unfold persist_position
      rw [hbal1]
      dsimp only
      rw [hget1]
      dsimp only
      refine ⟨_, _, rfl, rfl, ?_⟩
      dsimp only
      rw [hpos1, List.filter_append, filter_bne_beq_nil, List.nil_append,
          filter_map_mkPosRow]
  have hg2 : get_db_balance db2 eng.ident eng.strategy_account eng.strategy_version
      = .ok (some ab) := by
    unfold get_db_balance
    rw [show strategyFilter db2 eng.ident eng.strategy_account eng.strategy_version
        = strategyFilter db1 eng.ident eng.strategy_account eng.strategy_version from by
      unfold strategyFilter; rw [hbal2]]
    rw [hbal1]
  cases hpe : eng.position with
  | nil =>
    have hg3 : get_db_position db2 r.id = .ok none := by
      unfold get_db_position
      rw [hfpos, hpe, List.map_nil]
    unfold roundTrip
    rw [hpab]
    dsimp only [Bind.bind, Except.bind]
    rw [hpp]
    dsimp only [Bind.bind, Except.bind]
    rw [hg2]
    dsimp only [Bind.bind, Except.bind]
    rw [hg3]
    rfl
  | cons p0 t0 =>
    have hbuild : buildPosition (mkPosRow r.id p0 :: t0.map (mkPosRow r.id)) []
        = .ok ((p0 :: t0).foldl positionUpdate []) := buildPosition_map r.id (p0 :: t0) []
    have hfold : (p0 :: t0).foldl positionUpdate [] = p0 :: t0 := by
      have hres := foldl_positionUpdate_disjoint (p0 :: t0) []
        (by intro a ha; cases ha) (hpe ▸ hkeys)
      simpa using hres
    have hg3 : get_db_position db2 r.id = .ok (some (p0 :: t0)) := by
      unfold get_db_position
      rw [hfpos, hpe]
      dsimp only [List.map]
      rw [hbuild, hfold]
    unfold roundTrip
    rw [hpab]
    dsimp only [Bind.bind, Except.bind]
    rw [hpp]
    dsimp only [Bind.bind, Except.bind]
    rw [hg2]
    dsimp only [Bind.bind, Except.bind]
    rw [hg3]
    rfl

/-! ### Concrete states used by the scenario theorems, witnesses and
counterexamples -/

def identC : BrokerIdent := ⟨"futu", "SIMULATE", "acct1"⟩

def emptyLedger : Ledger := ⟨[], [], 1⟩

def engC2 : EngineState := ⟨identC, "sA", "1.0", some ⟨300, 500, 0, 0⟩, []⟩

def rowDefaultC2 : BalanceRow :=
  ⟨1, identC, 1, 1, "default", "1.0", "manual trading", "active", 700, 1500, -1, -1, 3, "N/A"⟩

def rowStratC2 : BalanceRow :=
  ⟨2, identC, 1, 2, "sA", "1.0", "", "active", 300, 500, -1, -1, 3, "N/A"⟩

def engC3 : EngineState := ⟨identC, "sA", "2.0", some ⟨300, 500, 0, 0⟩, []⟩

def dbC3 : Ledger :=
  ⟨[⟨1, identC, 1, 1, "default", "2.0", "manual trading", "active", 700, 1500, -1, -1, 3, "N/A"⟩,
    ⟨2, identC, 1, 2, "sA", "2.0", "", "active", 300, 500, -1, -1, 3, "N/A"⟩], [], 3⟩

def engC4 : EngineState := ⟨identC, "sA", "1.0", some ⟨50, 50, -1, -1⟩, []⟩

def dbC4 : Ledger :=
  ⟨[⟨1, identC, 1, 1, "default", "1.0", "manual trading", "active", 100, 10, -1, -1, 0, "N/A"⟩,
    ⟨2, identC, 1, 2, "sA", "1.0", "", "active", 50, 50, -1, -1, 0, "N/A"⟩], [], 3⟩

/-- `dbC4` after the cash update that precedes the failing power check. -/
def dbC4' : Ledger :=
  ⟨[⟨1, identC, 1, 1, "default", "1.0", "manual trading", "active", 250, 10, -1, -1, 0, "N/A"⟩,
    ⟨2, identC, 1, 2, "sA", "1.0", "", "active", 50, 50, -1, -1, 0, "N/A"⟩], [], 3⟩

def engC6 : EngineState := ⟨identC, "sA", "1.0", some ⟨300, 500, -1, -1⟩, []⟩

def dbC6 : Ledger :=
  ⟨[⟨1, identC, 1, 1, "default", "1.0", "manual trading", "active", 700, 1500, -1, -1, 3, "N/A"⟩,
    ⟨2, identC, 1, 2, "sA", "1.0", "", "active", 300, 500, -1, -1, 3, "N/A"⟩],
   [⟨2, "X", "0001", "LONG", 8, 40, 7⟩], 3⟩

def dbC7 : Ledger :=
  ⟨[⟨1, identC, 1, 1, "default", "1.0", "manual trading", "active", 700, 1500, -1, -1, 3, "N/A"⟩,
    ⟨2, identC, 1, 2, "sA", "1.0", "", "active", 300, 500, -1, -1, 3, "N/A"⟩], [], 3⟩

def engC8 : EngineState :=
  ⟨identC, "sA", "1.0", some ⟨300, 500, -1, -1⟩, [⟨⟨"0001", "X"⟩, .LONG, 5, 10, 7⟩]⟩

def dbC8 : Ledger :=
  ⟨[⟨1, identC, 1, 1, "default", "1.0", "manual trading", "active", 700, 1500, -1, -1, 3, "N/A"⟩,
    ⟨2, identC, 1, 2, "sA", "1.0", "", "active", 300, 500, -1, -1, 3, "N/A"⟩],
   [⟨1, "X", "0001", "LONG", 5, 10, 7⟩], 3⟩

/-! ### Scenario theorems and counterexamples

The Batteries library seals the `Rat` arithmetic operations as
irreducible; the concrete evaluations below unseal them locally so that
`decide` can reduce. -/

section ConcreteEvaluation

attribute [local semireducible] Rat.add Rat.sub Rat.mul Rat.inv

/-- C2: on an empty ledger with broker balance `{cash: 1000, power: 2000}`
and in-memory local balance `{cash: 300, power: 500}`,
`sync_broker_balance` inserts exactly two rows sharing
`broker_account_id = 1` with sequential `strategy_account_id` values 1
and 2: a default row `{cash: 700, power: 1500}` and a strategy row
`{cash: 300, power: 500}`; the portfolio balance is re-read from the
inserted strategy row. -/
theorem bootstrap_two_rows_scenario :
    sync_broker_balance engC2 emptyLedger (some ⟨1000, 2000, 0, 0⟩) 3 =
      .ok ({ engC2 with account_balance := some ⟨300, 500, -1, -1⟩ },
           ⟨[rowDefaultC2, rowStratC2], [], 3⟩,
           [.insertBal, .insertBal]) := by
  decide

/-- C3: the first-time bootstrap branch inserts the default row with the
identity's `strategy_version` (engine.py line 158), not with "1.0".  With
`strategy_version = "2.0"` the bootstrap succeeds and produces a default
row carrying version "2.0", so the default-row lookup of
`sync_broker_position` (which filters on `strategy_version = "1.0"` and
asserts exactly one match) finds no row and its assertion fails.  This
contradicts the source's own stated assumption that the default account
always has version "1.0" (engine.py line 241) and its assertion at lines
245-249. -/
theorem default_row_version_mismatch_bug :
    sync_broker_balance engC3 emptyLedger (some ⟨1000, 2000, 0, 0⟩) 3 =
      .ok ({ engC3 with account_balance := some ⟨300, 500, -1, -1⟩ }, dbC3,
           [.insertBal, .insertBal]) ∧
    (dbC3.balance.filter (fun r => r.strategy_account == "default")).map
        (fun r => r.strategy_version) = ["2.0"] ∧
    sync_broker_position { engC3 with account_balance := some ⟨300, 500, -1, -1⟩ }
        dbC3 (some []) = .error ⟨"default balance row not unique", dbC3, []⟩ := by
  refine ⟨by decide, by decide, by decide⟩

/-- C4 counterexample: in the subsequent-times branch the fields are
processed in the order cash, power, and each passing field is written
before the next is checked.  With default row `{cash: 100, power: 10}`,
strategy row `{cash: 50, power: 50}` and broker `{cash: 300, power: 20}`,
the cash delta (+150) is written, then the power check fails
(10 + (20 - 60) < 0): the call raises with the cash update already
persisted, so the ledger is NOT left entirely unchanged. -/
theorem partial_write_on_power_failure :
    sync_broker_balance engC4 dbC4 (some ⟨300, 20, 0, 0⟩) 5 =
      .error ⟨"negative power", dbC4', [.updateBal]⟩ ∧ dbC4' ≠ dbC4 := by
  refine ⟨by decide, by decide⟩

/-- C6 counterexample: a `(security, direction)` key present in a
non-default ledger position row (security "0001" held by the strategy)
but absent from the broker snapshot (which only holds "0002") is NOT
treated as an implicit zero broker quantity and is NOT fatal: the call
completes normally, the inner loop simply never matches the row, the
ledger row survives, and it is even reloaded into the portfolio. -/
theorem missing_broker_entry_no_raise :
    sync_broker_position engC6 dbC6 (some [⟨⟨"0002", "Y"⟩, .LONG, 10, 100, 9⟩]) =
      .ok ({ engC6 with position := [⟨⟨"0001", "X"⟩, .LONG, 8, 40, 7⟩] },
           { dbC6 with position := [⟨2, "X", "0001", "LONG", 8, 40, 7⟩,
                                    ⟨1, "Y", "0002", "LONG", 10, 100, 9⟩] },
           [.deletePos, .insertPos]) := by
  decide

/-- C7 counterexample: the first-time position bootstrap
(engine.py lines 253-265) inserts every broker position without any
quantity guard; a broker position with `quantity = 0` is persisted as a
ledger row with `quantity = 0`. -/
theorem bootstrap_persists_zero_quantity :
    sync_broker_position engC6 dbC7 (some [⟨⟨"0001", "X"⟩, .LONG, 5, 0, 7⟩]) =
      .ok ({ engC6 with position := [] },
           { dbC7 with position := [⟨1, "X", "0001", "LONG", 5, 0, 7⟩] },
           [.insertPos]) ∧
    ({ dbC7 with position := [⟨1, "X", "0001", "LONG", 5, 0, 7⟩] } : Ledger).position.map
        (fun p => p.quantity) = [0] := by
  refine ⟨by decide, by decide⟩

/-- C8 counterexample: an empty (non-`None`) broker position list with a
ledger configured is NOT a no-op: `sync_broker_position` proceeds, deletes
the default account's position rows and replaces the in-memory position
with the (empty) reloaded strategy position. -/
theorem empty_broker_positions_not_noop :
    sync_broker_position engC8 dbC8 (some []) =
      .ok ({ engC8 with position := [] }, { dbC8 with position := [] },
           [.deletePos]) ∧
    ({ dbC8 with position := [] } : Ledger) ≠ dbC8 ∧
    ({ engC8 with position := [] } : EngineState) ≠ engC8 := by
  refine ⟨by decide, by decide, by decide⟩

/-- C8 amended: a `None` broker result is treated as "unavailable" and is a
complete no-op for both sync operations, in both the with-ledger and the
no-ledger configuration; the no-ledger position sync is also a no-op on an
empty list (its update loop has nothing to do).  An empty list with a
ledger configured is not a no-op (see the counterexample). -/
theorem none_broker_result_noop (eng : EngineState) (db : Ledger) (now : Nat) :
    sync_broker_balance eng db none now = .ok (eng, db, []) ∧
    sync_broker_position eng db none = .ok (eng, db, []) ∧
    sync_broker_balance_nodb eng none = eng ∧
    sync_broker_position_nodb eng none = eng ∧
    sync_broker_position_nodb eng (some []) = eng := by
  refine ⟨rfl, rfl, rfl, rfl, ?_⟩
  show ({ eng with position := eng.position } : EngineState) = eng
  rfl

/-! ### Witnesses instantiating the general theorems at concrete inputs -/

def engC1 : EngineState := ⟨identC, "sA", "1.0", some ⟨300, 500, -1, -1⟩, []⟩

def dbC1 : Ledger :=
  ⟨[⟨1, identC, 1, 1, "default", "1.0", "manual trading", "active", 700, 1500, -1, -1, 3, "N/A"⟩,
    ⟨2, identC, 1, 2, "sA", "1.0", "", "active", 300, 500, -1, -1, 3, "N/A"⟩], [], 3⟩

/-- `dbC1` after syncing against broker `{cash: 1200, power: 2000}`: the
default row absorbed the cash delta. -/
def db1C1 : Ledger :=
  ⟨[⟨1, identC, 1, 1, "default", "1.0", "manual trading", "active", 900, 1500, -1, -1, 3, "N/A"⟩,
    ⟨2, identC, 1, 2, "sA", "1.0", "", "active", 300, 500, -1, -1, 3, "N/A"⟩], [], 3⟩

theorem sync_broker_balance_conserves_totals_witness :
    ((db1C1.balance.filter (fun s => s.broker_account_id == 1)).map
        (fun r => r.cash)).sum = (1200 : Rat) ∧
    ((db1C1.balance.filter (fun s => s.broker_account_id == 1)).map
        (fun r => r.power)).sum = (2000 : Rat) :=
  sync_broker_balance_conserves_totals engC1 dbC1 ⟨1200, 2000, 0, 0⟩ 5 engC1 db1C1
    [.updateBal] 1 (by decide) (by decide) (by decide)
    ⟨⟨1, identC, 1, 1, "default", "1.0", "manual trading", "active",
        900, 1500, -1, -1, 3, "N/A"⟩, by decide, rfl, rfl⟩

theorem second_sync_performs_no_writes_witness :
    sync_broker_balance ({ engC2 with account_balance := some ⟨300, 500, -1, -1⟩ })
        (⟨[rowDefaultC2, rowStratC2], [], 3⟩ : Ledger) (some ⟨1000, 2000, 0, 0⟩) 9 =
      .ok ({ engC2 with account_balance := some ⟨300, 500, -1, -1⟩ },
           ⟨[rowDefaultC2, rowStratC2], [], 3⟩, []) :=
  second_sync_performs_no_writes engC2 emptyLedger ⟨1000, 2000, 0, 0⟩ 3 9
    ({ engC2 with account_balance := some ⟨300, 500, -1, -1⟩ })
    (⟨[rowDefaultC2, rowStratC2], [], 3⟩ : Ledger) [.insertBal, .insertBal]
    (by decide) (by decide)

theorem cash_check_failure_writes_nothing_witness :
    sync_broker_balance engC4 dbC4 (some ⟨10, 100, 0, 0⟩) 5 =
      .error ⟨"negative cash", dbC4, []⟩ :=
  cash_check_failure_writes_nothing engC4 dbC4 ⟨10, 100, 0, 0⟩ 5
    ⟨1, identC, 1, 1, "default", "1.0", "manual trading", "active",
      100, 10, -1, -1, 0, "N/A"⟩
    (by decide) (by decide) (by decide)

theorem remainder_computation_cases_witness :
    (0 : Rat) < 100 - 40 ∧
    subtractDbPos (⟨⟨"0700", "TCH"⟩, .LONG, 8, 40, 7⟩ : PositionData)
        [⟨⟨"0700", "TCH"⟩, .LONG, 10, 100, 7⟩] =
      .ok [⟨⟨"0700", "TCH"⟩, .LONG, 680/60, 60, 7⟩] := by
  refine ⟨by decide, ?_⟩
  have h := (remainder_computation_cases (⟨⟨"0700", "TCH"⟩, .LONG, 10, 100, 7⟩ : PositionData)
      (⟨⟨"0700", "TCH"⟩, .LONG, 8, 40, 7⟩ : PositionData) rfl rfl).1 (by decide)
  rw [h]
  decide

theorem unmatched_db_row_leaves_broker_list_witness :
    subtractDbPos (⟨⟨"0001", "X"⟩, .LONG, 8, 40, 7⟩ : PositionData)
        [⟨⟨"0002", "Y"⟩, .LONG, 10, 100, 9⟩] =
      .ok [⟨⟨"0002", "Y"⟩, .LONG, 10, 100, 9⟩] :=
  unmatched_db_row_leaves_broker_list (⟨⟨"0001", "X"⟩, .LONG, 8, 40, 7⟩ : PositionData)
    [⟨⟨"0002", "Y"⟩, .LONG, 10, 100, 9⟩] (by decide)

theorem reinserted_default_rows_positive_witness :
    0 < (⟨1, "X", "0001", "LONG", 680/60, 60, 7⟩ : PositionRow).quantity :=
  reinserted_default_rows_positive engC6 dbC6 [⟨⟨"0001", "X"⟩, .LONG, 10, 100, 9⟩]
    ({ engC6 with position := [⟨⟨"0001", "X"⟩, .LONG, 8, 40, 7⟩] })
    ({ dbC6 with position := [⟨2, "X", "0001", "LONG", 8, 40, 7⟩,
                              ⟨1, "X", "0001", "LONG", 680/60, 60, 7⟩] })
    [.deletePos, .insertPos]
    (by decide) (by decide)
    (⟨1, "X", "0001", "LONG", 680/60, 60, 7⟩ : PositionRow) (by decide) (by decide)

def engC10 : EngineState :=
  ⟨identC, "sA", "1.0", some ⟨111, 222, 5, 6⟩, [⟨⟨"0001", "X"⟩, .LONG, 9, 15, 7⟩]⟩

def dbC10 : Ledger :=
  ⟨[⟨1, identC, 1, 2, "sA", "1.0", "", "active", 300, 500, -1, -1, 3, "N/A"⟩],
   [⟨1, "Z", "0009", "LONG", 2, 3, 4⟩], 2⟩

theorem persist_reload_round_trip_witness :
    roundTrip engC10 dbC10 1 =
      .ok (some ⟨111, 222, 5, 6⟩, [⟨⟨"0001", "X"⟩, .LONG, 9, 15, 7⟩]) :=
  persist_reload_round_trip engC10 dbC10 ⟨111, 222, 5, 6⟩
    ⟨1, identC, 1, 2, "sA", "1.0", "", "active", 300, 500, -1, -1, 3, "N/A"⟩
    (by decide) (by decide) (by decide) (by decide)

end ConcreteEvaluation

end QTrader
